import Mathlib

/-!
Verification of the image-to-album-list reconstruction pipeline of the
spotifyreviewer repository: the OCR text parser (src/utils/albumParser.ts),
the OCR adapter and column detector (src/utils/ocrProcessor.ts), and the
match resolver / candidate-list state logic
(src/app/review-builder/_components/ImageListImporter.tsx).

Text is modelled as `List Char`.  JavaScript strings are UTF-16 but every
operation used by the code (split, trim, indexOf of the delimiters, length
bounds on names, character classes) acts per code point for the inputs in
scope, so a code-point list is a faithful model.  Number-valued expressions
of the source are modelled over `Nat`/`ℚ`; where the source compares an
integer count against a product with an IEEE-754 decimal constant, the
comparison is embedded as the exact rational comparison, which provably
coincides with the double-precision one for every realistic string length
(noted at each use site).
-/

namespace SpotifyReviewer

/-- The character set matched by the JavaScript regex class for whitespace and
removed by String.trim: space, tab, LF, VT, FF, CR, NBSP, Ogham space mark,
the U+2000 to U+200A range, LS, PS, NNBSP, MMSP, ideographic space, BOM. -/
def isJsWS (c : Char) : Bool :=
  c = ' ' || c = '\t' || c = '\n' || c = '\r' ||
  c = Char.ofNat 11 || c = Char.ofNat 12 ||
  c = Char.ofNat 0xa0 || c = Char.ofNat 0x1680 ||
  (Char.ofNat 0x2000 ≤ c && c ≤ Char.ofNat 0x200a) ||
  c = Char.ofNat 0x2028 || c = Char.ofNat 0x2029 ||
  c = Char.ofNat 0x202f || c = Char.ofNat 0x205f ||
  c = Char.ofNat 0x3000 || c = Char.ofNat 0xfeff

/-- Left half of String.trim: drop leading whitespace. -/
def trimL (l : List Char) : List Char := l.dropWhile isJsWS

/-- Right half of String.trim: drop trailing whitespace. -/
def trimR (l : List Char) : List Char := (l.reverse.dropWhile isJsWS).reverse

/-- JavaScript String.trim. -/
def jsTrim (l : List Char) : List Char := trimR (trimL l)

/-- Helper for `splitLines`; accumulates the current line reversed. -/
def splitLinesAux (acc : List Char) : List Char → List (List Char)
  | [] => [acc.reverse]
  | c :: cs =>
    if c = '\n' then acc.reverse :: splitLinesAux [] cs
    else splitLinesAux (c :: acc) cs

/-- JavaScript text.split of a newline: every line, empty pieces included. -/
def splitLines (l : List Char) : List (List Char) := splitLinesAux [] l

/-- JavaScript String.indexOf restricted to a nonnegative answer: the position
of the first occurrence of `needle`, if any. -/
def findSubstrIdx (needle : List Char) : List Char → Option Nat
  | [] => if needle.isPrefixOf ([] : List Char) then some 0 else none
  | c :: t =>
    if needle.isPrefixOf (c :: t) then some 0
    else (findSubstrIdx needle t).map (· + 1)

/-- JavaScript String.includes. -/
def containsSubstr (hay needle : List Char) : Bool := (findSubstrIdx needle hay).isSome

/-- ASCII digit test, the regex class of a digit. -/
def isDigit9 (c : Char) : Bool := '0' ≤ c && c ≤ '9'

/-- The straight apostrophe character, code point 39. -/
def apoChar : Char := Char.ofNat 39

/-! ### src/utils/albumParser.ts -/

/-- The ParsedAlbum interface of albumParser.ts. -/
structure ParsedAlbum where
  artist : List Char
  album : List Char
  lineNumber : Option Nat := none
deriving DecidableEq, Repr

/-- The leading-enumeration strip in parseAlbumLine: the regex replace of one
leading run of digits followed by a period or closing parenthesis and then
optional whitespace; when the pattern does not match, the line is unchanged. -/
def stripLeadingEnum (l : List Char) : List Char :=
  let ds := l.takeWhile isDigit9
  let rest := l.drop ds.length
  if ds.length = 0 then l
  else
    match rest with
    | [] => l
    | c :: rest2 =>
      if c = '.' || c = ')' then rest2.dropWhile isJsWS else l

/-- The ordered delimiter list of parseAlbumLine: spaced hyphen, spaced en
dash, spaced em dash, bare hyphen, bare en dash, bare em dash, colon-space,
spaced slash, spaced pipe. -/
def delimiters : List (List Char) :=
  [" - ".data, " – ".data, " — ".data, "-".data, "–".data, "—".data,
   ": ".data, " / ".data, " | ".data]

/-- The body of the delimiter loop in parseAlbumLine: find the first
occurrence of the delimiter; when its index is positive, split there, trim
both sides, and accept when the artist length is below 100 and the album
length below 200, both positive. -/
def tryDelim (cleanLine d : List Char) : Option (List Char × List Char) :=
  match findSubstrIdx d cleanLine with
  | none => none
  | some idx =>
    if 0 < idx then
      let artist := jsTrim (cleanLine.take idx)
      let album := jsTrim (cleanLine.drop (idx + d.length))
      if 0 < artist.length && artist.length < 100 &&
         0 < album.length && album.length < 200 then
        some (artist, album)
      else none
    else none

/-- The delimiter loop of parseAlbumLine: first delimiter that yields an
accepted split wins. -/
def parseAlbumLineLoop (cleanLine : List Char) : List (List Char) → Option (List Char × List Char)
  | [] => none
  | d :: ds =>
    match tryDelim cleanLine d with
    | some r => some r
    | none => parseAlbumLineLoop cleanLine ds

/-- parseAlbumLine of albumParser.ts. -/
def parseAlbumLine (line : List Char) : Option (List Char × List Char) :=
  parseAlbumLineLoop (stripLeadingEnum line) delimiters

/-- The indexed loop of parseAlbumsFromText over the already filtered lines:
the counter i starts at 0 and each parsed line receives lineNumber i + 1. -/
def parseLinesLoop (i : Nat) : List (List Char) → List ParsedAlbum
  | [] => []
  | l :: ls =>
    match parseAlbumLine l with
    | some (a, b) =>
      { artist := a, album := b, lineNumber := some (i + 1) } :: parseLinesLoop (i + 1) ls
    | none => parseLinesLoop (i + 1) ls

/-- parseAlbumsFromText of albumParser.ts: split on newline, trim each line,
filter out the empty lines, then number the remaining lines from 1. -/
def parseAlbumsFromText (text : List Char) : List ParsedAlbum :=
  parseLinesLoop 0 (((splitLines text).map jsTrim).filter fun l => decide (0 < l.length))

/-- Replace each maximal run of characters satisfying p with a single space;
`inRun` records whether the previous character was part of a run.  With p the
whitespace class this is the regex replace of whitespace runs by one space. -/
def collapseRuns (p : Char → Bool) (inRun : Bool) : List Char → List Char
  | [] => []
  | c :: cs =>
    if p c then
      if inRun then collapseRuns p true cs
      else ' ' :: collapseRuns p true cs
    else c :: collapseRuns p false cs

/-- The second replace in cleanText.  In the source the regex character class
consists of two straight double-quote characters (bytes 22 22), so the
replacement maps the straight double quote to itself: an identity map. -/
def normalizeQuoteChar (c : Char) : Char := if c = '"' then '"' else c

/-- The third replace in cleanText.  In the source the regex character class
consists of two straight apostrophes (bytes 27 27), so the replacement maps
the straight apostrophe to itself: an identity map. -/
def normalizeApostropheChar (c : Char) : Char := if c = apoChar then apoChar else c

/-- The horizontal-ellipsis glyph, code point 0x2026. -/
def ellipsisChar : Char := Char.ofNat 0x2026

/-- The fourth replace in cleanText: each ellipsis glyph becomes three
periods. -/
def expandEllipsis (l : List Char) : List Char :=
  l.flatMap fun c => if c = ellipsisChar then ['.', '.', '.'] else [c]

/-- The class of the fifth replace in cleanText: whitespace other than CR and
LF. -/
def isSpaceNotNL (c : Char) : Bool := isJsWS c && !(c = '\r') && !(c = '\n')

/-- cleanText of albumParser.ts: collapse whitespace runs, the two identity
quote replacements, expand ellipses, collapse non-newline whitespace runs,
trim. -/
def cleanText (l : List Char) : List Char :=
  jsTrim (collapseRuns isSpaceNotNL false
    (expandEllipsis
      (((collapseRuns isJsWS false l).map normalizeQuoteChar).map normalizeApostropheChar)))

/-- cleanAlbumInfo of albumParser.ts. -/
def cleanAlbumInfo (p : ParsedAlbum) : ParsedAlbum :=
  { artist := cleanText p.artist, album := cleanText p.album, lineNumber := p.lineNumber }

/-- ASCII uppercase to lowercase; other characters unchanged.  This models
String.toLowerCase for the character repertoire reaching the comparison
normalizers: every non-ASCII character is removed by the alphanumeric filter
applied right after, on either side of the case map. -/
def toLowerChar (c : Char) : Char :=
  if 'A' ≤ c && c ≤ 'Z' then Char.ofNat (c.toNat + 32) else c

/-- The class kept by the regex filter of normalizeForComparison: lowercase
letters and digits. -/
def isLowerAlnum (c : Char) : Bool := ('a' ≤ c && c ≤ 'z') || ('0' ≤ c && c ≤ '9')

/-- normalizeForComparison of albumParser.ts: lowercase, strip everything but
lowercase alphanumerics, trim. -/
def normalizeForComparison (l : List Char) : List Char :=
  jsTrim ((l.map toLowerChar).filter isLowerAlnum)

/-- The loop of deduplicateAlbums; `seen` models the Set of normalized keys. -/
def deduplicateAlbumsLoop (seen : List (List Char)) : List ParsedAlbum → List ParsedAlbum
  | [] => []
  | a :: rest =>
    let key := normalizeForComparison (a.artist ++ a.album)
    if seen.contains key then deduplicateAlbumsLoop seen rest
    else a :: deduplicateAlbumsLoop (key :: seen) rest

/-- deduplicateAlbums of albumParser.ts. -/
def deduplicateAlbums (albums : List ParsedAlbum) : List ParsedAlbum :=
  deduplicateAlbumsLoop [] albums

/-- ASCII letter test, the regex class of a letter. -/
def isAsciiLetter (c : Char) : Bool := ('a' ≤ c && c ≤ 'z') || ('A' ≤ c && c ≤ 'Z')

/-- The complement of the noise class in filterValidAlbums: alphanumerics,
whitespace, hyphen, apostrophe and slash are allowed. -/
def isAllowedFilterChar (c : Char) : Bool :=
  isAsciiLetter c || isDigit9 c || isJsWS c || c = '-' || c = apoChar || c = '/'

/-- The filter callback of filterValidAlbums.  The source compares the count
of special characters against combined.length * 0.3 in double precision;
since the count is an integer and the double product differs from the exact
value 3L/10 by far less than the distance to the nearest different integer
for every string length L below 2^45 (and equals 3L/10 exactly when L is a
multiple of 10), that comparison coincides with the exact rational test
10 * specials < 3 * L, which is how it is embedded. -/
def filterValidKeep (a : ParsedAlbum) : Bool :=
  if a.artist.length < 2 || a.album.length < 2 then false
  else
    let combined := a.artist ++ [' '] ++ a.album
    let letters := (combined.filter isAsciiLetter).length
    let specials := (combined.filter fun c => !isAllowedFilterChar c).length
    decide (5 ≤ letters) && decide (10 * specials < 3 * combined.length)

/-- filterValidAlbums of albumParser.ts. -/
def filterValidAlbums (albums : List ParsedAlbum) : List ParsedAlbum :=
  albums.filter filterValidKeep

/-! ### Claim-modelled parser variants and the parser theorems -/

/-- Modelled from the wording of claim C1: each candidate carries the 1-based
position of its source line in the original newline-split of the input,
counted before any filtering, so empty lines still consume a line number. -/
def parseAlbumsPreFilterNumbering (text : List Char) : List ParsedAlbum :=
  ((splitLines text).map jsTrim).enum.filterMap fun p =>
    if p.2.length = 0 then none
    else (parseAlbumLine p.2).map fun q =>
      { artist := q.1, album := q.2, lineNumber := some (p.1 + 1) }

/-- Modelled from the amended claim C1: lineNumber is the 1-based position of
the line among the trimmed non-empty lines; empty lines are removed before
numbering, while non-empty lines that fail to parse still consume numbers. -/
def parseAlbumsPostFilterNumbering (text : List Char) : List ParsedAlbum :=
  (((splitLines text).map jsTrim).filter fun l => decide (0 < l.length)).enum.filterMap
    fun p => (parseAlbumLine p.2).map fun q =>
      { artist := q.1, album := q.2, lineNumber := some (p.1 + 1) }

theorem parseLinesLoop_eq (ls : List (List Char)) : ∀ i : Nat,
    parseLinesLoop i ls = (ls.enumFrom i).filterMap
      (fun p => (parseAlbumLine p.2).map fun q =>
        { artist := q.1, album := q.2, lineNumber := some (p.1 + 1) }) := by
  induction ls with
  | nil => intro i; rfl
  | cons l ls ih =>
    intro i
    simp only [parseLinesLoop, List.enumFrom_cons, List.filterMap_cons]
    cases h : parseAlbumLine l with
    | none => simp [h, ih]
    | some q => simp [h, ih]

/-- Claim C1 states that lineNumber is the position in the original
newline-split counted before filtering, so that empty lines consume numbers.
On the input with an empty second line the code numbers the third line 2,
while the claim requires 3: the code filters empty lines away before the
numbering loop runs. -/
theorem C1_counterexample :
    (parseAlbumsFromText "A - B\n\nC - D".data).map ParsedAlbum.lineNumber =
      [some 1, some 2] ∧
    (parseAlbumsPreFilterNumbering "A - B\n\nC - D".data).map ParsedAlbum.lineNumber =
      [some 1, some 3] ∧
    parseAlbumsFromText "A - B\n\nC - D".data ≠
      parseAlbumsPreFilterNumbering "A - B\n\nC - D".data := by
  refine ⟨by decide, by decide, by decide⟩

/-- Claim C1 as amended: every candidate returned by the line parser carries a
lineNumber equal to the 1-based position of its source line among the trimmed
non-empty lines of the input; empty lines are dropped before numbering and do
not consume line numbers, while non-empty lines that produce no candidate
still consume line numbers. -/
theorem C1_lineNumber_postFilter (text : List Char) :
    parseAlbumsFromText text = parseAlbumsPostFilterNumbering text := by
  unfold parseAlbumsFromText parseAlbumsPostFilterNumbering
  rw [parseLinesLoop_eq]
  rfl

/-- Modelled from the wording of claim C2: split at the first occurrence of
the delimiter, accept the split only when the delimiter index is positive,
the trimmed artist has 1 to 99 characters and the trimmed album has 1 to 199
characters. -/
def splitAtFirstOccurrence (cleanLine d : List Char) : Option (List Char × List Char) :=
  match findSubstrIdx d cleanLine with
  | none => none
  | some idx =>
    let artist := jsTrim (cleanLine.take idx)
    let album := jsTrim (cleanLine.drop (idx + d.length))
    if 0 < idx ∧ (1 ≤ artist.length ∧ artist.length ≤ 99) ∧
        (1 ≤ album.length ∧ album.length ≤ 199)
    then some (artist, album) else none

/-- Modelled from the wording of claim C2: after stripping a leading
enumeration, the delimiters are tried in the stated priority order and the
first delimiter yielding an accepted split wins. -/
def parseAlbumLineClaim (line : List Char) : Option (List Char × List Char) :=
  delimiters.findSome? (splitAtFirstOccurrence (stripLeadingEnum line))

theorem tryDelim_eq_splitAtFirstOccurrence (cl d : List Char) :
    tryDelim cl d = splitAtFirstOccurrence cl d := by
  unfold tryDelim splitAtFirstOccurrence
  cases findSubstrIdx d cl with
  | none => rfl
  | some idx =>
    dsimp only
    by_cases h : 0 < idx
    · rw [if_pos h]
      refine if_congr ?_ rfl rfl
      simp only [Bool.and_eq_true, decide_eq_true_eq]
      omega
    · rw [if_neg h, if_neg]
      intro hB
      exact h hB.1

theorem parseAlbumLineLoop_eq_findSome (cl : List Char) (ds : List (List Char)) :
    parseAlbumLineLoop cl ds = ds.findSome? (splitAtFirstOccurrence cl) := by
  induction ds with
  | nil => rfl
  | cons d ds ih =>
    simp only [parseAlbumLineLoop, List.findSome?_cons, tryDelim_eq_splitAtFirstOccurrence]
    cases splitAtFirstOccurrence cl d <;> simp [ih]

/-- Claim C2: the line parser strips a leading enumeration, tries the nine
delimiters in the stated priority order, splits at the first occurrence,
accepts only a positive index with a trimmed artist of 1 to 99 characters and
a trimmed album of 1 to 199 characters, stops at the first accepted split;
the Radiohead example splits at the first spaced hyphen. -/
theorem C2_delimiter_priority :
    (∀ line : List Char, parseAlbumLine line = parseAlbumLineClaim line) ∧
    parseAlbumLine ("Radiohead - OK Computer - Collector".data ++ [apoChar] ++ "s Edition".data) =
      some ("Radiohead".data,
            "OK Computer - Collector".data ++ [apoChar] ++ "s Edition".data) := by
  constructor
  · intro line
    unfold parseAlbumLine parseAlbumLineClaim
    exact parseAlbumLineLoop_eq_findSome _ _
  · decide

/-- Modelled from the wording of claim C8: keep a candidate iff both name
fields have length at least 2, the combined string has at least 5 letters,
and the special characters do not exceed 30 percent of the combined length,
with exactly 30 percent still kept. -/
def filterValidAlbumsClaim (albums : List ParsedAlbum) : List ParsedAlbum :=
  albums.filter fun a =>
    let combined := a.artist ++ [' '] ++ a.album
    decide (2 ≤ a.artist.length) && decide (2 ≤ a.album.length) &&
    decide (5 ≤ (combined.filter isAsciiLetter).length) &&
    decide (10 * (combined.filter fun c => !isAllowedFilterChar c).length ≤ 3 * combined.length)

/-- Modelled from the amended claim C8: keep a candidate iff both name fields
have length at least 2, the combined string has at least 5 letters, and the
special characters make up strictly less than 30 percent of the combined
length, so that exactly 30 percent is dropped. -/
def validAlbumKeep (a : ParsedAlbum) : Bool :=
  let combined := a.artist ++ [' '] ++ a.album
  decide (2 ≤ a.artist.length) && decide (2 ≤ a.album.length) &&
  decide (5 ≤ (combined.filter isAsciiLetter).length) &&
  decide (10 * (combined.filter fun c => !isAllowedFilterChar c).length < 3 * combined.length)

/-- Claim C8 states that a candidate whose special-character count is exactly
30 percent of the combined length is kept.  The combined string of the
candidate below has length 10 with exactly 3 special characters; the code
drops it (strict less-than), while the claim keeps it. -/
theorem C8_counterexample :
    filterValidAlbums [{ artist := "ab".data, album := "cdef???".data }] = [] ∧
    filterValidAlbumsClaim [{ artist := "ab".data, album := "cdef???".data }] =
      [{ artist := "ab".data, album := "cdef???".data }] := by
  refine ⟨by decide, by decide⟩

/-- Claim C8 as amended: the candidate filter keeps a candidate iff both name
fields have length at least 2, the combined string has at least 5 alphabetic
characters, and the characters outside the allowed class make up strictly
less than 30 percent of the combined length; a candidate at exactly 30
percent is dropped. -/
theorem C8_filter_policy (albums : List ParsedAlbum) :
    filterValidAlbums albums = albums.filter validAlbumKeep := by
  unfold filterValidAlbums
  refine List.filter_congr ?_
  intro a _
  unfold filterValidKeep validAlbumKeep
  by_cases h1 : a.artist.length < 2
  · have hc : (decide (a.artist.length < 2) || decide (a.album.length < 2)) = true := by
      simp [h1]
    simp only [hc, if_true]
    have : decide (2 ≤ a.artist.length) = false := by simp; omega
    simp [this]
  · by_cases h2 : a.album.length < 2
    · have hc : (decide (a.artist.length < 2) || decide (a.album.length < 2)) = true := by
        simp [h2]
      simp only [hc, if_true]
      have : decide (2 ≤ a.album.length) = false := by simp; omega
      simp [this]
    · have hc : (decide (a.artist.length < 2) || decide (a.album.length < 2)) = false := by
        simp [h1, h2]
      have e1 : decide (2 ≤ a.artist.length) = true := by simp; omega
      have e2 : decide (2 ≤ a.album.length) = true := by simp; omega
      simp [hc, e1, e2]

/-! ### Idempotence of cleanText (claim C9) -/

/-- Every whitespace character of the list is the plain space. -/
def wsOnlySpace (l : List Char) : Prop := ∀ c ∈ l, isJsWS c = true → c = ' '

/-- No two adjacent characters of the list are both the plain space. -/
def noDoubleSpace (l : List Char) : Prop := l.Chain' fun a b => ¬(a = ' ' ∧ b = ' ')

theorem collapseRuns_cons (p : Char → Bool) (b : Bool) (c : Char) (cs : List Char) :
    collapseRuns p b (c :: cs) =
      if p c then
        (if b then collapseRuns p true cs else ' ' :: collapseRuns p true cs)
      else c :: collapseRuns p false cs := rfl

theorem mem_collapseRuns (p : Char → Bool) (l : List Char) :
    ∀ b, ∀ c ∈ collapseRuns p b l, c = ' ' ∨ p c = false := by
  induction l with
  | nil => intro b c hc; cases hc
  | cons d ds ih =>
    intro b c hc
    rw [collapseRuns_cons] at hc
    by_cases hpd : p d = true
    · rw [if_pos hpd] at hc
      cases b with
      | true =>
        simp only [if_pos rfl] at hc
        exact ih true c hc
      | false =>
        simp only [Bool.false_eq_true, if_neg] at hc
        rcases List.mem_cons.mp hc with hc | hc
        · exact Or.inl hc
        · exact ih true c hc
    · rw [if_neg hpd] at hc
      rcases List.mem_cons.mp hc with hc | hc
      · subst hc; exact Or.inr (Bool.eq_false_iff.mpr hpd)
      · exact ih false c hc

theorem collapseRuns_wsOnlySpace (l : List Char) (b : Bool) :
    wsOnlySpace (collapseRuns isJsWS b l) := by
  intro c hc hws
  rcases mem_collapseRuns isJsWS l b c hc with h | h
  · exact h
  · rw [hws] at h; cases h

theorem collapseRuns_noDouble (p : Char → Bool) (hp : p ' ' = true) (l : List Char) :
    ∀ b, noDoubleSpace (collapseRuns p b l) ∧
      ∀ c ∈ (collapseRuns p true l).head?, c ≠ ' ' := by
  induction l with
  | nil =>
    intro b
    exact ⟨List.chain'_nil, by intro c hc; cases hc⟩
  | cons d ds ih =>
    intro b
    by_cases hpd : p d = true
    · have hrec := ih true
      constructor
      · rw [collapseRuns_cons, if_pos hpd]
        cases b with
        | true => simpa using hrec.1
        | false =>
          simp only [Bool.false_eq_true, if_neg]
          exact List.chain'_cons'.mpr ⟨fun y hy hcontra => hrec.2 y hy hcontra.2, hrec.1⟩
      · rw [collapseRuns_cons, if_pos hpd]
        simpa using hrec.2
    · have hd : d ≠ ' ' := by
        intro h; subst h; exact hpd hp
      have hrec := ih false
      constructor
      · rw [collapseRuns_cons, if_neg hpd]
        exact List.chain'_cons'.mpr ⟨fun y _ hcontra => hd hcontra.1, hrec.1⟩
      · rw [collapseRuns_cons, if_neg hpd]
        intro c hc
        simp only [List.head?_cons, Option.mem_def, Option.some.injEq] at hc
        subst hc; exact hd

theorem collapseRuns_id (p : Char → Bool) (l : List Char)
    (hws : ∀ c ∈ l, p c = true → c = ' ') (hnd : noDoubleSpace l) :
    collapseRuns p false l = l ∧
      ((∀ c ∈ l.head?, c ≠ ' ') → collapseRuns p true l = l) := by
  induction l with
  | nil => exact ⟨rfl, fun _ => rfl⟩
  | cons d ds ih =>
    have hws_ds : ∀ c ∈ ds, p c = true → c = ' ' :=
      fun c hc => hws c (List.mem_cons_of_mem d hc)
    have hnd_parts := List.chain'_cons'.mp hnd
    have ihds := ih hws_ds hnd_parts.2
    by_cases hpd : p d = true
    · have hd : d = ' ' := hws d (List.mem_cons_self d ds) hpd
      have hhead : ∀ c ∈ ds.head?, c ≠ ' ' := by
        intro c hc hcsp
        exact hnd_parts.1 c hc ⟨hd, hcsp⟩
      constructor
      · rw [collapseRuns_cons, if_pos hpd, if_neg (by decide : ¬(false = true)),
          ihds.2 hhead, hd]
      · intro hne
        exact absurd hd (hne d (by simp))
    · constructor
      · rw [collapseRuns_cons, if_neg hpd, ihds.1]
      · intro _
        rw [collapseRuns_cons, if_neg hpd, ihds.1]

theorem expandEllipsis_nil : expandEllipsis [] = [] := rfl

theorem expandEllipsis_cons (c : Char) (cs : List Char) :
    expandEllipsis (c :: cs) =
      (if c = ellipsisChar then ['.', '.', '.'] else [c]) ++ expandEllipsis cs := by
  simp [expandEllipsis]

theorem mem_expandEllipsis (l : List Char) :
    ∀ c ∈ expandEllipsis l, c = '.' ∨ (c ∈ l ∧ c ≠ ellipsisChar) := by
  induction l with
  | nil => intro c hc; cases hc
  | cons d ds ih =>
    intro c hc
    rw [expandEllipsis_cons] at hc
    rcases List.mem_append.mp hc with hc | hc
    · by_cases hd : d = ellipsisChar
      · rw [if_pos hd] at hc
        left
        simp only [List.mem_cons, List.not_mem_nil, or_false] at hc
        rcases hc with h | h | h <;> exact h
      · rw [if_neg hd] at hc
        rw [List.mem_singleton] at hc
        subst hc
        exact Or.inr ⟨List.mem_cons_self c ds, hd⟩
    · rcases ih c hc with h | h
      · exact Or.inl h
      · exact Or.inr ⟨List.mem_cons_of_mem d h.1, h.2⟩

theorem expandEllipsis_noDouble (l : List Char) (hnd : noDoubleSpace l) :
    noDoubleSpace (expandEllipsis l) ∧
      ∀ c ∈ (expandEllipsis l).head?, c = ' ' → l.head? = some ' ' := by
  induction l with
  | nil => exact ⟨List.chain'_nil, by intro c hc; cases hc⟩
  | cons d ds ih =>
    have hnd_parts := List.chain'_cons'.mp hnd
    have ihds := ih hnd_parts.2
    by_cases hd : d = ellipsisChar
    · constructor
      · rw [expandEllipsis_cons, if_pos hd]
        refine List.chain'_cons'.mpr ⟨?_, ?_⟩
        · intro y _ hcontra
          exact absurd hcontra.1 (by decide)
        refine List.chain'_cons'.mpr ⟨?_, ?_⟩
        · intro y _ hcontra
          exact absurd hcontra.1 (by decide)
        refine List.chain'_cons'.mpr ⟨?_, ?_⟩
        · intro y _ hcontra
          exact absurd hcontra.1 (by decide)
        · exact ihds.1
      · rw [expandEllipsis_cons, if_pos hd]
        intro c hc hcsp
        simp only [List.cons_append, List.head?_cons, Option.mem_def, Option.some.injEq] at hc
        subst hc; cases hcsp
    · constructor
      · rw [expandEllipsis_cons, if_neg hd]
        refine List.chain'_cons'.mpr ⟨?_, ihds.1⟩
        intro y hy hcontra
        have hds_head : ds.head? = some ' ' := ihds.2 y hy hcontra.2
        exact hnd_parts.1 ' ' hds_head ⟨hcontra.1, rfl⟩
      · rw [expandEllipsis_cons, if_neg hd]
        intro c hc hcsp
        simp only [List.singleton_append, List.head?_cons, Option.mem_def,
          Option.some.injEq] at hc
        subst hc
        simp [hcsp]

theorem expandEllipsis_id (l : List Char) (h : ∀ c ∈ l, c ≠ ellipsisChar) :
    expandEllipsis l = l := by
  induction l with
  | nil => rfl
  | cons d ds ih =>
    rw [expandEllipsis_cons, if_neg (h d (List.mem_cons_self d ds))]
    rw [ih fun c hc => h c (List.mem_cons_of_mem d hc)]
    rfl

theorem normalizeQuoteChar_id : normalizeQuoteChar = id := by
  funext c
  unfold normalizeQuoteChar
  split <;> simp_all

theorem normalizeApostropheChar_id : normalizeApostropheChar = id := by
  funext c
  unfold normalizeApostropheChar
  split <;> simp_all

theorem cleanText_eq (l : List Char) :
    cleanText l =
      jsTrim (collapseRuns isSpaceNotNL false
        (expandEllipsis (collapseRuns isJsWS false l))) := by
  unfold cleanText
  rw [normalizeQuoteChar_id, normalizeApostropheChar_id, List.map_id, List.map_id]

theorem head?_dropWhile (p : Char → Bool) (l : List Char) :
    ∀ c ∈ (l.dropWhile p).head?, p c = false := by
  induction l with
  | nil => intro c hc; cases hc
  | cons d ds ih =>
    intro c hc
    by_cases hpd : p d = true
    · rw [List.dropWhile_cons_of_pos hpd] at hc
      exact ih c hc
    · rw [List.dropWhile_cons_of_neg hpd] at hc
      simp only [List.head?_cons, Option.mem_def, Option.some.injEq] at hc
      subst hc
      exact Bool.eq_false_iff.mpr hpd

theorem dropWhile_id_of_head (p : Char → Bool) (l : List Char)
    (h : ∀ c ∈ l.head?, p c = false) : l.dropWhile p = l := by
  cases l with
  | nil => rfl
  | cons d ds =>
    have : p d = false := h d (by simp)
    rw [List.dropWhile_cons_of_neg (by simp [this])]

theorem chain'_dropWhile {R : Char → Char → Prop} (p : Char → Bool) (l : List Char)
    (h : l.Chain' R) : (l.dropWhile p).Chain' R := by
  induction l with
  | nil => exact h
  | cons d ds ih =>
    by_cases hpd : p d = true
    · rw [List.dropWhile_cons_of_pos hpd]
      exact ih (List.chain'_cons'.mp h).2
    · rw [List.dropWhile_cons_of_neg hpd]
      exact h

theorem noDouble_reverse (l : List Char) (h : noDoubleSpace l) :
    noDoubleSpace l.reverse := by
  rw [noDoubleSpace, List.chain'_reverse]
  exact h.imp fun a b hab hcontra => hab ⟨hcontra.2, hcontra.1⟩

theorem mem_trimL (l : List Char) : ∀ c ∈ trimL l, c ∈ l := by
  intro c hc
  exact (List.dropWhile_suffix isJsWS).subset hc

theorem mem_trimR (l : List Char) : ∀ c ∈ trimR l, c ∈ l := by
  intro c hc
  rw [trimR, List.mem_reverse] at hc
  have := (List.dropWhile_suffix isJsWS).subset hc
  rwa [List.mem_reverse] at this

theorem mem_jsTrim (l : List Char) : ∀ c ∈ jsTrim l, c ∈ l := by
  intro c hc
  exact mem_trimL l c (mem_trimR (trimL l) c hc)

theorem trimL_noDouble (l : List Char) (h : noDoubleSpace l) : noDoubleSpace (trimL l) :=
  chain'_dropWhile isJsWS l h

theorem trimR_noDouble (l : List Char) (h : noDoubleSpace l) : noDoubleSpace (trimR l) := by
  rw [trimR]
  have h1 := noDouble_reverse l h
  have h2 := chain'_dropWhile isJsWS l.reverse h1
  have h3 := noDouble_reverse _ h2
  exact h3

theorem jsTrim_noDouble (l : List Char) (h : noDoubleSpace l) : noDoubleSpace (jsTrim l) :=
  trimR_noDouble _ (trimL_noDouble l h)

theorem trimR_is_prefixpart (l : List Char) : trimR l <+: l := by
  have h : l.reverse.dropWhile isJsWS <:+ l.reverse := List.dropWhile_suffix isJsWS
  have h2 := List.reverse_prefix.mpr h
  rwa [List.reverse_reverse] at h2

theorem head?_trimR (l : List Char) :
    ∀ c ∈ (trimR l).head?, l.head? = some c := by
  intro c hc
  obtain ⟨t, ht⟩ := trimR_is_prefixpart l
  cases htr : trimR l with
  | nil => rw [htr] at hc; cases hc
  | cons d ds =>
    rw [htr] at hc
    simp only [List.head?_cons, Option.mem_def, Option.some.injEq] at hc
    subst hc
    rw [htr] at ht
    rw [← ht]
    rfl

theorem getLast?_trimR (l : List Char) :
    ∀ c ∈ (trimR l).getLast?, isJsWS c = false := by
  intro c hc
  rw [trimR, ← List.head?_reverse, List.reverse_reverse] at hc
  exact head?_dropWhile isJsWS l.reverse c hc

theorem trimR_id_of_getLast (l : List Char)
    (h : ∀ c ∈ l.getLast?, isJsWS c = false) : trimR l = l := by
  rw [trimR, dropWhile_id_of_head isJsWS l.reverse
    (by intro c hc; rw [List.head?_reverse] at hc; exact h c hc), List.reverse_reverse]

theorem jsTrim_head (l : List Char) :
    ∀ c ∈ (jsTrim l).head?, isJsWS c = false := by
  intro c hc
  have := head?_trimR (trimL l) c hc
  exact head?_dropWhile isJsWS l c this

theorem jsTrim_getLast (l : List Char) :
    ∀ c ∈ (jsTrim l).getLast?, isJsWS c = false :=
  getLast?_trimR (trimL l)

theorem jsTrim_id_of_clean (l : List Char)
    (hhead : ∀ c ∈ l.head?, isJsWS c = false)
    (hlast : ∀ c ∈ l.getLast?, isJsWS c = false) : jsTrim l = l := by
  rw [jsTrim, trimL, dropWhile_id_of_head isJsWS l hhead, trimR_id_of_getLast l hlast]

theorem isSpaceNotNL_imp (c : Char) (h : isSpaceNotNL c = true) : isJsWS c = true := by
  rw [isSpaceNotNL, Bool.and_eq_true, Bool.and_eq_true] at h
  exact h.1.1

/-- The shape of the cleanText output used for idempotence: all whitespace is
the plain space, no two adjacent spaces, no leading or trailing whitespace,
no ellipsis glyph. -/
theorem cleanText_clean (s : List Char) :
    wsOnlySpace (cleanText s) ∧ noDoubleSpace (cleanText s) ∧
      (∀ c ∈ (cleanText s).head?, isJsWS c = false) ∧
      (∀ c ∈ (cleanText s).getLast?, isJsWS c = false) ∧
      (∀ c ∈ cleanText s, c ≠ ellipsisChar) := by
  have hA_ws : wsOnlySpace (collapseRuns isJsWS false s) := collapseRuns_wsOnlySpace s false
  have hA_nd : noDoubleSpace (collapseRuns isJsWS false s) :=
    (collapseRuns_noDouble isJsWS (by decide) s false).1
  set A := collapseRuns isJsWS false s with hA
  have hB_ws : wsOnlySpace (expandEllipsis A) := by
    intro c hc hws
    rcases mem_expandEllipsis A c hc with h | h
    · subst h; cases hws
    · exact hA_ws c h.1 hws
  have hB_nd : noDoubleSpace (expandEllipsis A) := (expandEllipsis_noDouble A hA_nd).1
  have hB_ell : ∀ c ∈ expandEllipsis A, c ≠ ellipsisChar := by
    intro c hc
    rcases mem_expandEllipsis A c hc with h | h
    · subst h; decide
    · exact h.2
  set B := expandEllipsis A with hB
  have hC_eq : collapseRuns isSpaceNotNL false B = B := by
    refine (collapseRuns_id isSpaceNotNL B ?_ hB_nd).1
    intro c hc h
    exact hB_ws c hc (isSpaceNotNL_imp c h)
  have hclean : cleanText s = jsTrim B := by
    rw [cleanText_eq, ← hA, ← hB, hC_eq]
  refine ⟨?_, ?_, ?_, ?_, ?_⟩
  · rw [hclean]; intro c hc; exact hB_ws c (mem_jsTrim B c hc)
  · rw [hclean]; exact jsTrim_noDouble B hB_nd
  · rw [hclean]; exact jsTrim_head B
  · rw [hclean]; exact jsTrim_getLast B
  · rw [hclean]; intro c hc; exact hB_ell c (mem_jsTrim B c hc)

/-- Claim C9 as amended: cleanText is idempotent.  (The quote and apostrophe
replacement steps of cleanText are identity maps, since the character classes
in the source hold straight quote characters; curly quotes pass through
unchanged, see the counterexample.) -/
theorem C9_cleanText_idempotent (s : List Char) :
    cleanText (cleanText s) = cleanText s := by
  obtain ⟨hws, hnd, hhead, hlast, hell⟩ := cleanText_clean s
  set m := cleanText s with hm
  have h1 : collapseRuns isJsWS false m = m :=
    (collapseRuns_id isJsWS m (fun c hc h => hws c hc h) hnd).1
  have h2 : expandEllipsis m = m := expandEllipsis_id m hell
  have h3 : collapseRuns isSpaceNotNL false m = m := by
    refine (collapseRuns_id isSpaceNotNL m ?_ hnd).1
    intro c hc h
    exact hws c hc (isSpaceNotNL_imp c h)
  have h4 : jsTrim m = m := jsTrim_id_of_clean m hhead hlast
  rw [cleanText_eq, h1, h2, h3, h4]

/-- Modelled from the wording of claim C9: map the curly double quotes to the
straight double quote and the curly apostrophes to the straight apostrophe. -/
def curlyToStraight (c : Char) : Char :=
  if c = Char.ofNat 0x201c || c = Char.ofNat 0x201d then '"'
  else if c = Char.ofNat 0x2018 || c = Char.ofNat 0x2019 then apoChar
  else c

/-- Modelled from the wording of claim C9: normalize collapses whitespace runs
to a single space, maps curly quotes and apostrophes to straight ones, maps
the ellipsis glyph to three periods, and trims. -/
def normalizeClaimC9 (l : List Char) : List Char :=
  jsTrim (expandEllipsis ((collapseRuns isJsWS false l).map curlyToStraight))

/-- Claim C9 describes the normalizer as mapping curly quotes to straight
ones, but in the source the two quote-normalization regex classes hold
straight quote characters, so they are identity replacements: on the single
left curly double quote the code returns it unchanged while the described
normalizer returns the straight quote. -/
theorem C9_counterexample :
    cleanText [Char.ofNat 0x201c] = [Char.ofNat 0x201c] ∧
    normalizeClaimC9 [Char.ofNat 0x201c] = ['"'] ∧
    cleanText [Char.ofNat 0x201c] ≠ normalizeClaimC9 [Char.ofNat 0x201c] := by
  refine ⟨by decide, by decide, by decide⟩

/-! ### src/app/review-builder/_components/ImageListImporter.tsx -/

/-- The raw album records returned by the search API route and consumed by
searchSpotifyAlbum: falsy optional fields are modelled as `none`. -/
structure SearchResult where
  id : List Char
  name : List Char
  artists : List (List Char)
  image : Option (List Char)
  releaseDate : Option (List Char)
  spotifyUrl : Option (List Char)
deriving DecidableEq, Repr

/-- The SpotifyAlbum shape the importer builds from an accepted raw result;
artists and images are kept as the lists of names and urls (the source wraps
them in one-field objects), external_urls.spotify as the optional url.  The
label field is the constant null and is elided. -/
structure SpotifyAlbum where
  id : List Char
  name : List Char
  artists : List (List Char)
  images : List (List Char)
  release_date : List Char
  spotifyUrl : Option (List Char)
deriving DecidableEq, Repr

/-- The MatchedAlbum interface of the importer. -/
structure MatchedAlbum where
  artist : List Char
  album : List Char
  lineNumber : Option Nat := none
  spotifyData : Option SpotifyAlbum := none
  matched : Bool := false
  searching : Bool := false
deriving DecidableEq, Repr

/-- normalizeText of the importer: lowercase, keep only lowercase
alphanumerics and whitespace, collapse whitespace runs, trim. -/
def normalizeText (l : List Char) : List Char :=
  jsTrim (collapseRuns isJsWS false
    ((l.map toLowerChar).filter fun c => isLowerAlnum c || isJsWS c))

/-- Helper for `splitSpaces`; accumulates the current word reversed. -/
def splitSpacesAux (acc : List Char) : List Char → List (List Char)
  | [] => [acc.reverse]
  | c :: cs =>
    if c = ' ' then acc.reverse :: splitSpacesAux [] cs
    else splitSpacesAux (c :: acc) cs

/-- JavaScript split on the single space character. -/
def splitSpaces (l : List Char) : List (List Char) := splitSpacesAux [] l

/-- isSimilar of the importer.  The source compares the matching-word count
against min * 0.5 in double precision; 0.5 and the product are exact dyadic
values, so the comparison is embedded exactly as min ≤ 2 * matching. -/
def isSimilar (s1 s2 : List Char) : Bool :=
  let n1 := normalizeText s1
  let n2 := normalizeText s2
  if n1 = n2 then true
  else if containsSubstr n1 n2 || containsSubstr n2 n1 then true
  else
    let w1 := (splitSpaces n1).filter fun w => decide (2 < w.length)
    let w2 := (splitSpaces n2).filter fun w => decide (2 < w.length)
    if w1.length = 0 || w2.length = 0 then false
    else
      let matching := w1.filter fun w =>
        w2.any fun w2x => containsSubstr w2x w || containsSubstr w w2x
      decide (min w1.length w2.length ≤ 2 * matching.length)

/-- The punctuation class of cleanSearchQuery: question and exclamation
marks, period, comma, semicolon, colon, apostrophe, double quote, round and
square and curly brackets. -/
def isQueryPunct (c : Char) : Bool :=
  c = '?' || c = '!' || c = '.' || c = ',' || c = ';' || c = ':' ||
  c = apoChar || c = '"' || c = '(' || c = ')' || c = '[' || c = ']' ||
  c = Char.ofNat 123 || c = Char.ofNat 125

/-- cleanSearchQuery of the importer: punctuation to spaces, collapse
whitespace runs, trim. -/
def cleanSearchQuery (l : List Char) : List Char :=
  jsTrim (collapseRuns isJsWS false (l.map fun c => if isQueryPunct c then ' ' else c))

/-- The four search strategies of searchSpotifyAlbum, in source order. -/
def searchStrategies (a : MatchedAlbum) : List (List Char) :=
  let cleanArtist := cleanSearchQuery a.artist
  let cleanAlbum := cleanSearchQuery a.album
  ["artist:".data ++ cleanArtist ++ " album:".data ++ cleanAlbum,
   cleanArtist ++ [' '] ++ cleanAlbum,
   "artist:".data ++ cleanArtist ++ [' '] ++ cleanAlbum,
   cleanAlbum ++ [' '] ++ cleanArtist]

/-- Outcome of one fetch of the search route: the fetch throws (network
error), the response is not ok, or the response is ok with a result list. -/
inductive FetchOutcome where
  | throws
  | notOk
  | ok (results : List SearchResult)
deriving DecidableEq, Repr

/-- A search oracle: the behaviour of the remote search capability as a
function of the query string and the limit parameter of the request. -/
abbrev SearchOracle := List Char → Nat → FetchOutcome

/-- The per-result acceptance test of searchSpotifyAlbum: the artist
similarity against the artists array joined by spaces, and the album-title
similarity, must both pass. -/
def resultAccepted (a : MatchedAlbum) (r : SearchResult) : Bool :=
  isSimilar a.artist (List.intercalate [' '] r.artists) && isSimilar a.album r.name

/-- The conversion of an accepted raw result to the SpotifyAlbum shape. -/
def convertResult (r : SearchResult) : SpotifyAlbum :=
  { id := r.id, name := r.name, artists := r.artists,
    images := (match r.image with | some u => [u] | none => []),
    release_date := r.releaseDate.getD [],
    spotifyUrl := r.spotifyUrl }

/-- The query loop of searchSpotifyAlbum, returning the list of fetches
issued (query and limit, in source order) together with the result.  A
not-ok response, or an ok response with no accepted result, falls through to
the next query; a throwing fetch propagates to the function-level catch,
which logs and returns null, so the loop stops. -/
def searchSpotifyAlbumGo (oracle : SearchOracle) (a : MatchedAlbum) :
    List (List Char) → List (List Char × Nat) × Option SpotifyAlbum
  | [] => ([], none)
  | q :: qs =>
    match oracle q 5 with
    | FetchOutcome.throws => ([(q, 5)], none)
    | FetchOutcome.notOk =>
      let rest := searchSpotifyAlbumGo oracle a qs
      ((q, 5) :: rest.1, rest.2)
    | FetchOutcome.ok results =>
      match results.find? (resultAccepted a) with
      | some r => ([(q, 5)], some (convertResult r))
      | none =>
        let rest := searchSpotifyAlbumGo oracle a qs
        ((q, 5) :: rest.1, rest.2)

/-- searchSpotifyAlbum of the importer, instrumented with its fetch trace. -/
def searchSpotifyAlbum (oracle : SearchOracle) (a : MatchedAlbum) :
    List (List Char × Nat) × Option SpotifyAlbum :=
  searchSpotifyAlbumGo oracle a (searchStrategies a)

/-- Modelled from the wording of claim C3: the accepted match a single query
yields, namely the first result of its ok response passing both similarity
tests. -/
def acceptedOf (oracle : SearchOracle) (a : MatchedAlbum) (q : List Char) :
    Option SpotifyAlbum :=
  match oracle q 5 with
  | FetchOutcome.ok results => (results.find? (resultAccepted a)).map convertResult
  | _ => none

/-- Modelled from the wording of claim C3: the four queries are tried in the
fixed order and the first accepted match is returned. -/
def resolveClaimC3 (oracle : SearchOracle) (a : MatchedAlbum) : Option SpotifyAlbum :=
  (searchStrategies a).findSome? (acceptedOf oracle a)

/-- Modelled from the wording of claim C3: every query fetches with limit 5,
and a later query is issued only when every earlier query yielded no accepted
match, so the fetch trace is the strategy list up to and including the first
query with an accepted match. -/
def issuedClaimC3 (oracle : SearchOracle) (a : MatchedAlbum) :
    List (List Char) → List (List Char × Nat)
  | [] => []
  | q :: qs =>
    if (acceptedOf oracle a q).isSome then [(q, 5)]
    else (q, 5) :: issuedClaimC3 oracle a qs

theorem searchGo_spec (oracle : SearchOracle) (a : MatchedAlbum)
    (hnet : ∀ q n, oracle q n ≠ FetchOutcome.throws) :
    ∀ qs, searchSpotifyAlbumGo oracle a qs =
      (issuedClaimC3 oracle a qs, qs.findSome? (acceptedOf oracle a)) := by
  intro qs
  induction qs with
  | nil => rfl
  | cons q qs ih =>
    cases hq : oracle q 5 with
    | throws => exact absurd hq (hnet q 5)
    | notOk =>
      have hacc : acceptedOf oracle a q = none := by simp [acceptedOf, hq]
      simp [searchSpotifyAlbumGo, hq, ih, issuedClaimC3, hacc, List.findSome?_cons]
    | ok results =>
      cases hf : results.find? (resultAccepted a) with
      | some r =>
        have hacc : acceptedOf oracle a q = some (convertResult r) := by
          simp [acceptedOf, hq, hf]
        simp [searchSpotifyAlbumGo, hq, hf, issuedClaimC3, hacc, List.findSome?_cons]
      | none =>
        have hacc : acceptedOf oracle a q = none := by simp [acceptedOf, hq, hf]
        simp [searchSpotifyAlbumGo, hq, hf, ih, issuedClaimC3, hacc, List.findSome?_cons]

/-- Claim C3: the resolver builds exactly four query strings tried in the
fixed source order with limit 5 each, accepts from an ok response the first
result passing both similarity tests, and issues a later query only when
every earlier query yielded no accepted match; stated for runs where no fetch
throws (a thrown fetch is the subject of claim C5). -/
theorem C3_match_resolver_order (oracle : SearchOracle) (a : MatchedAlbum)
    (hnet : ∀ q n, oracle q n ≠ FetchOutcome.throws) :
    (searchStrategies a).length = 4 ∧
    searchSpotifyAlbum oracle a =
      (issuedClaimC3 oracle a (searchStrategies a), resolveClaimC3 oracle a) :=
  ⟨rfl, searchGo_spec oracle a hnet (searchStrategies a)⟩

/-- Candidate used in the witnesses of claims C3 and C5. -/
def aWit : MatchedAlbum := { artist := "aa".data, album := "bb".data }

/-- Matching raw result for `aWit`. -/
def rWit : SearchResult :=
  { id := "id1".data, name := "bb".data, artists := ["aa".data],
    image := none, releaseDate := none, spotifyUrl := none }

/-- Oracle for the witness of claim C3: the first strategy is not ok, the
second is ok with no result, only the third yields the accepted match. -/
def oracleC3wit : SearchOracle := fun q _ =>
  if q = "artist:aa bb".data then FetchOutcome.ok [rWit]
  else if q = "aa bb".data then FetchOutcome.ok []
  else FetchOutcome.notOk

theorem C3_match_resolver_order_witness :
    (∀ q n, oracleC3wit q n ≠ FetchOutcome.throws) ∧
    searchSpotifyAlbum oracleC3wit aWit =
      ([("artist:aa album:bb".data, 5), ("aa bb".data, 5), ("artist:aa bb".data, 5)],
       some (convertResult rWit)) := by
  have hnet : ∀ q n, oracleC3wit q n ≠ FetchOutcome.throws := by
    intro q n
    unfold oracleC3wit
    split
    · simp
    · split <;> simp
  refine ⟨hnet, ?_⟩
  rw [(C3_match_resolver_order oracleC3wit aWit hnet).2]
  decide

/-- Oracle for claim C5: the first strategy throws, every other query would
yield the accepted match. -/
def oracleC5wit : SearchOracle := fun q _ =>
  if q = "artist:aa album:bb".data then FetchOutcome.throws
  else FetchOutcome.ok [rWit]

/-- Claim C5 states that when the fetch of one query phrasing throws, the
resolver treats just that query as non-matching and proceeds to the remaining
phrasings.  In the code the catch sits outside the query loop, so the thrown
first query ends the whole candidate with null even though the second
phrasing would have produced an accepted match. -/
theorem C5_counterexample :
    searchSpotifyAlbum oracleC5wit aWit = ([("artist:aa album:bb".data, 5)], none) ∧
    acceptedOf oracleC5wit aWit ("aa bb".data) = some (convertResult rWit) ∧
    resolveClaimC3 oracleC5wit aWit = some (convertResult rWit) := by
  refine ⟨by decide, by decide, by decide⟩

/-- Claim C5 as amended: a not-ok response is handled at the level of that
single query — the query is skipped and the remaining phrasings are tried —
but a fetch that throws is caught at candidate level: the resolver returns
null for the whole candidate and the remaining phrasings are abandoned. -/
theorem C5_network_failure_scope (oracle : SearchOracle) (a : MatchedAlbum)
    (q : List Char) (qs : List (List Char)) :
    (oracle q 5 = FetchOutcome.notOk →
      searchSpotifyAlbumGo oracle a (q :: qs) =
        ((q, 5) :: (searchSpotifyAlbumGo oracle a qs).1,
         (searchSpotifyAlbumGo oracle a qs).2)) ∧
    (oracle q 5 = FetchOutcome.throws →
      searchSpotifyAlbumGo oracle a (q :: qs) = ([(q, 5)], none)) := by
  constructor
  · intro h; simp [searchSpotifyAlbumGo, h]
  · intro h; simp [searchSpotifyAlbumGo, h]

theorem C5_network_failure_scope_witness :
    searchSpotifyAlbumGo oracleC5wit aWit
        ("artist:aa album:bb".data :: ["aa bb".data]) =
      ([("artist:aa album:bb".data, 5)], none) ∧
    searchSpotifyAlbumGo oracleC3wit aWit ("artist:aa album:bb".data :: []) =
      (("artist:aa album:bb".data, 5) :: (searchSpotifyAlbumGo oracleC3wit aWit []).1,
       (searchSpotifyAlbumGo oracleC3wit aWit []).2) := by
  constructor
  · exact (C5_network_failure_scope oracleC5wit aWit _ _).2 (by decide)
  · exact (C5_network_failure_scope oracleC3wit aWit _ _).1 (by decide)

/-! ### Candidate-list state operations of the importer -/

/-- The settlement of one candidate in handleSearchAllAlbums and
handleManualSearch: searching is raised while the query runs and cleared
afterwards (the final state is kept here), matched records whether a result
arrived, spotifyData holds it. -/
def settleCandidate (oracle : SearchOracle) (a : MatchedAlbum) : MatchedAlbum :=
  let res := (searchSpotifyAlbum oracle a).2
  { a with searching := false, matched := res.isSome, spotifyData := res }

/-- The index loop of handleSearchAllAlbums over the shared array: each
candidate is settled in place, one after the other. -/
def handleSearchAllLoop (oracle : SearchOracle) (albums : List MatchedAlbum) (i : Nat) :
    List MatchedAlbum :=
  if h : i < albums.length then
    handleSearchAllLoop oracle
      (albums.set i (settleCandidate oracle (albums.get ⟨i, h⟩))) (i + 1)
  else albums
termination_by albums.length - i
decreasing_by simp only [List.length_set]; omega

/-- handleSearchAllAlbums of the importer (the fixed 300 ms delay between
iterations has no effect on the final list and is elided). -/
def handleSearchAllAlbums (oracle : SearchOracle) (albums : List MatchedAlbum) :
    List MatchedAlbum :=
  handleSearchAllLoop oracle albums 0

theorem handleSearchAllLoop_eq (oracle : SearchOracle) :
    ∀ (n : Nat) (l : List MatchedAlbum) (i : Nat), l.length - i = n →
      handleSearchAllLoop oracle l i =
        l.take i ++ (l.drop i).map (settleCandidate oracle) := by
  intro n
  induction n with
  | zero =>
    intro l i hn
    rw [handleSearchAllLoop]
    have hge : ¬ i < l.length := by omega
    rw [dif_neg hge, List.drop_eq_nil_of_le (by omega), List.map_nil, List.append_nil,
      List.take_of_length_le (by omega)]
  | succ n ih =>
    intro l i hn
    rw [handleSearchAllLoop]
    have hi : i < l.length := by omega
    rw [dif_pos hi]
    have hlen : (l.set i (settleCandidate oracle (l.get ⟨i, hi⟩))).length - (i + 1) = n := by
      simp only [List.length_set]; omega
    rw [ih _ _ hlen]
    rw [List.set_eq_take_cons_drop _ hi]
    have htk : l.take i ++ settleCandidate oracle (l.get ⟨i, hi⟩) :: l.drop (i + 1) =
        (l.take i ++ [settleCandidate oracle (l.get ⟨i, hi⟩)]) ++ l.drop (i + 1) := by
      simp
    rw [htk]
    have hlt : (l.take i).length = i := List.length_take_of_le (by omega)
    rw [List.take_append_eq_append_take, List.drop_append_eq_append_drop]
    rw [List.drop_eq_getElem_cons hi, List.map_cons]
    simp [hlt, List.take_of_length_le, Nat.succ_sub_one]

/-- The batch is the per-candidate map: shared helper of claims C6 and C7. -/
theorem handleSearchAllAlbums_eq_map (oracle : SearchOracle) (albums : List MatchedAlbum) :
    handleSearchAllAlbums oracle albums = albums.map (settleCandidate oracle) := by
  unfold handleSearchAllAlbums
  simpa using handleSearchAllLoop_eq oracle albums.length albums 0 rfl

/-- handleManualSearch of the importer: settle the candidate at the given
index, the others untouched (the surrounding UI only passes indices of
existing entries; an out-of-range index is a no-op here). -/
def handleManualSearch (oracle : SearchOracle) (idx : Nat) (s : List MatchedAlbum) :
    List MatchedAlbum :=
  if h : idx < s.length then s.set idx (settleCandidate oracle (s.get ⟨idx, h⟩)) else s

/-- Which field handleEditAlbum rewrites. -/
inductive EditField where
  | artist
  | album
deriving DecidableEq, Repr

/-- The entry rewrite of handleEditAlbum: the field takes the new value and
matched and spotifyData are reset together. -/
def editEntry (field : EditField) (value : List Char) (a : MatchedAlbum) : MatchedAlbum :=
  match field with
  | EditField.artist => { a with artist := value, matched := false, spotifyData := none }
  | EditField.album => { a with album := value, matched := false, spotifyData := none }

/-- The indexed map of handleEditAlbum. -/
def handleEditAlbumLoop (idx : Nat) (field : EditField) (value : List Char) (i : Nat) :
    List MatchedAlbum → List MatchedAlbum
  | [] => []
  | a :: rest =>
    (if i = idx then editEntry field value a else a) ::
      handleEditAlbumLoop idx field value (i + 1) rest

/-- handleEditAlbum of the importer. -/
def handleEditAlbum (idx : Nat) (field : EditField) (value : List Char)
    (s : List MatchedAlbum) : List MatchedAlbum :=
  handleEditAlbumLoop idx field value 0 s

/-- The indexed filter of handleRemoveAlbum. -/
def handleRemoveAlbumLoop (idx i : Nat) : List MatchedAlbum → List MatchedAlbum
  | [] => []
  | a :: rest =>
    if i = idx then handleRemoveAlbumLoop idx (i + 1) rest
    else a :: handleRemoveAlbumLoop idx (i + 1) rest

/-- handleRemoveAlbum of the importer. -/
def handleRemoveAlbum (idx : Nat) (s : List MatchedAlbum) : List MatchedAlbum :=
  handleRemoveAlbumLoop idx 0 s

/-- The initial candidate list built in handleProcessImage from the OCR text:
parse, clean, filter, deduplicate, then mark every entry unmatched and not
searching with no resolved data. -/
def importCandidates (text : List Char) : List MatchedAlbum :=
  (deduplicateAlbums (filterValidAlbums
      ((parseAlbumsFromText text).map cleanAlbumInfo))).map fun p =>
    { artist := p.artist, album := p.album, lineNumber := p.lineNumber,
      matched := false, searching := false, spotifyData := none }

/-- The candidate-list operations of the importer. -/
inductive ImporterOp where
  | searchAll (oracle : SearchOracle)
  | manualSearch (idx : Nat) (oracle : SearchOracle)
  | edit (idx : Nat) (field : EditField) (value : List Char)
  | remove (idx : Nat)

/-- One state transition of the candidate list. -/
def importerStep (s : List MatchedAlbum) : ImporterOp → List MatchedAlbum
  | ImporterOp.searchAll oracle => handleSearchAllAlbums oracle s
  | ImporterOp.manualSearch idx oracle => handleManualSearch oracle idx s
  | ImporterOp.edit idx field value => handleEditAlbum idx field value s
  | ImporterOp.remove idx => handleRemoveAlbum idx s

/-- The data-model invariant for one candidate: matched entries carry
resolved data. -/
def candidateInv (a : MatchedAlbum) : Prop :=
  a.matched = true → a.spotifyData.isSome = true

/-- The data-model invariant for the whole candidate list. -/
def stateInv (s : List MatchedAlbum) : Prop := ∀ a ∈ s, candidateInv a

theorem settleCandidate_inv (oracle : SearchOracle) (a : MatchedAlbum) :
    candidateInv (settleCandidate oracle a) := by
  intro h
  exact h

theorem editEntry_reset (field : EditField) (value : List Char) (a : MatchedAlbum) :
    (editEntry field value a).matched = false ∧
      (editEntry field value a).spotifyData = none := by
  cases field <;> exact ⟨rfl, rfl⟩

theorem handleEditAlbumLoop_get (idx : Nat) (field : EditField) (value : List Char) :
    ∀ (l : List MatchedAlbum) (i j : Nat),
      (handleEditAlbumLoop idx field value i l).get? j =
        (l.get? j).map fun a => if i + j = idx then editEntry field value a else a := by
  intro l
  induction l with
  | nil => intro i j; rfl
  | cons a rest ih =>
    intro i j
    cases j with
    | zero => simp [handleEditAlbumLoop]
    | succ j =>
      simp only [handleEditAlbumLoop, List.get?_cons_succ]
      rw [ih (i + 1) j]
      have : i + 1 + j = i + (j + 1) := by omega
      rw [this]

theorem mem_handleEditAlbumLoop (idx : Nat) (field : EditField) (value : List Char) :
    ∀ (l : List MatchedAlbum) (i : Nat) (a : MatchedAlbum),
      a ∈ handleEditAlbumLoop idx field value i l →
        a ∈ l ∨ ∃ b, a = editEntry field value b := by
  intro l
  induction l with
  | nil => intro i a ha; cases ha
  | cons b rest ih =>
    intro i a ha
    rcases List.mem_cons.mp ha with ha | ha
    · by_cases hi : i = idx
      · rw [if_pos hi] at ha
        exact Or.inr ⟨b, ha⟩
      · rw [if_neg hi] at ha
        exact Or.inl (ha ▸ List.mem_cons_self b rest)
    · rcases ih (i + 1) a ha with h | h
      · exact Or.inl (List.mem_cons_of_mem b h)
      · exact Or.inr h

theorem mem_handleRemoveAlbumLoop (idx : Nat) :
    ∀ (l : List MatchedAlbum) (i : Nat) (a : MatchedAlbum),
      a ∈ handleRemoveAlbumLoop idx i l → a ∈ l := by
  intro l
  induction l with
  | nil => intro i a ha; cases ha
  | cons b rest ih =>
    intro i a ha
    unfold handleRemoveAlbumLoop at ha
    by_cases hi : i = idx
    · rw [if_pos hi] at ha
      exact List.mem_cons_of_mem b (ih (i + 1) a ha)
    · rw [if_neg hi] at ha
      rcases List.mem_cons.mp ha with ha | ha
      · exact ha ▸ List.mem_cons_self b rest
      · exact List.mem_cons_of_mem b (ih (i + 1) a ha)

theorem importerStep_inv (s : List MatchedAlbum) (op : ImporterOp)
    (hs : stateInv s) : stateInv (importerStep s op) := by
  cases op with
  | searchAll oracle =>
    intro a ha
    rw [importerStep, handleSearchAllAlbums_eq_map] at ha
    rcases List.mem_map.mp ha with ⟨b, _, rfl⟩
    exact settleCandidate_inv oracle b
  | manualSearch idx oracle =>
    intro a ha
    rw [importerStep, handleManualSearch] at ha
    by_cases h : idx < s.length
    · rw [dif_pos h] at ha
      rcases List.mem_or_eq_of_mem_set ha with ha | rfl
      · exact hs a ha
      · exact settleCandidate_inv oracle _
    · rw [dif_neg h] at ha
      exact hs a ha
  | edit idx field value =>
    intro a ha
    rw [importerStep, handleEditAlbum] at ha
    rcases mem_handleEditAlbumLoop idx field value s 0 a ha with h | ⟨b, rfl⟩
    · exact hs a h
    · intro hm
      rw [(editEntry_reset field value b).1] at hm
      cases hm
  | remove idx =>
    intro a ha
    rw [importerStep, handleRemoveAlbum] at ha
    exact hs a (mem_handleRemoveAlbumLoop idx s 0 a ha)

theorem importCandidates_inv (text : List Char) : stateInv (importCandidates text) := by
  intro a ha
  rcases List.mem_map.mp ha with ⟨p, _, rfl⟩
  intro hm
  cases hm

/-- Claim C7: every candidate-list operation — initial creation after import,
batch resolution, manual per-candidate resolution, editing a name field,
removing a candidate — preserves the invariant that a matched candidate
carries resolved data, and the edit resets matched and spotifyData together,
atomically. -/
theorem C7_matched_invariant :
    (∀ (text : List Char) (ops : List ImporterOp),
      stateInv (ops.foldl importerStep (importCandidates text))) ∧
    (∀ (s : List MatchedAlbum) (idx : Nat) (field : EditField) (value : List Char)
        (a : MatchedAlbum),
      (handleEditAlbum idx field value s).get? idx = some a →
        a.matched = false ∧ a.spotifyData = none) := by
  constructor
  · intro text ops
    have hgen : ∀ (ops : List ImporterOp) (s : List MatchedAlbum), stateInv s →
        stateInv (ops.foldl importerStep s) := by
      intro ops
      induction ops with
      | nil => intro s hs; exact hs
      | cons op ops ih =>
        intro s hs
        exact ih _ (importerStep_inv s op hs)
    exact hgen ops _ (importCandidates_inv text)
  · intro s idx field value a ha
    rw [handleEditAlbum, handleEditAlbumLoop_get] at ha
    rcases Option.map_eq_some'.mp ha with ⟨b, _, hb⟩
    rw [Nat.zero_add, if_pos rfl] at hb
    rw [← hb]
    exact editEntry_reset field value b

theorem C7_matched_invariant_witness :
    stateInv ([ImporterOp.edit 0 EditField.artist "cc".data].foldl importerStep
      (importCandidates "Nirvana - Nevermind".data)) ∧
    ((editEntry EditField.artist "cc".data aWit).matched = false ∧
      (editEntry EditField.artist "cc".data aWit).spotifyData = none) := by
  refine ⟨C7_matched_invariant.1 _ _, ?_⟩
  exact C7_matched_invariant.2 [aWit] 0 EditField.artist "cc".data
    (editEntry EditField.artist "cc".data aWit) (by decide)

/-- Candidates and oracle for the concrete scenario of claim C6: the oracle
throws on every query of the second candidate. -/
def cA6 : MatchedAlbum := { artist := "aa".data, album := "xx".data }

def cB6 : MatchedAlbum := { artist := "bb".data, album := "yy".data }

def cC6 : MatchedAlbum := { artist := "cc".data, album := "zz".data }

def rA6 : SearchResult :=
  { id := "a1".data, name := "xx".data, artists := ["aa".data],
    image := none, releaseDate := none, spotifyUrl := none }

def rC6 : SearchResult :=
  { id := "c1".data, name := "zz".data, artists := ["cc".data],
    image := none, releaseDate := none, spotifyUrl := none }

def oracleC6 : SearchOracle := fun q _ =>
  if q = "artist:aa album:xx".data then FetchOutcome.ok [rA6]
  else if q = "artist:bb album:yy".data then FetchOutcome.throws
  else if q = "artist:cc album:zz".data then FetchOutcome.ok [rC6]
  else FetchOutcome.notOk

/-- Claim C6: batch resolution settles each candidate from its own search
alone — the result is the per-candidate map, so one candidate's failure never
stops resolution of the rest — and in the concrete 3-candidate batch whose
second candidate's search throws, candidates 1 and 3 still settle to their
own matched states while candidate 2 settles unmatched. -/
theorem C6_batch_fault_isolation :
    (∀ (oracle : SearchOracle) (albums : List MatchedAlbum),
      handleSearchAllAlbums oracle albums = albums.map (settleCandidate oracle)) ∧
    handleSearchAllAlbums oracleC6 [cA6, cB6, cC6] =
      [{ cA6 with
          searching := false
          matched := true
          spotifyData := some (convertResult rA6) },
       { cB6 with searching := false, matched := false, spotifyData := none },
       { cC6 with
          searching := false
          matched := true
          spotifyData := some (convertResult rC6) }] := by
  refine ⟨handleSearchAllAlbums_eq_map, ?_⟩
  rw [handleSearchAllAlbums_eq_map]
  decide

/-! ### src/utils/ocrProcessor.ts: the OCR adapter -/

/-- The effects of processImageWithOCR on the recognition worker. -/
inductive OcrEff where
  | createWorker
  | recognize
  | terminate
deriving DecidableEq, Repr

/-- The behaviour of the external engine for one invocation: whether
createWorker resolves, and the recognized text and confidence when recognize
resolves (`none` models a rejected recognize call). -/
structure OcrEnv where
  createOk : Bool
  recognizeResult : Option (List Char × ℚ)
deriving DecidableEq

/-- The user-facing message of the catch block of processImageWithOCR. -/
def ocrFailureMessage : List Char :=
  "Failed to extract text from image. Please try a clearer image.".data

/-- processImageWithOCR of ocrProcessor.ts, with its worker-effect trace: the
try block awaits createWorker, then recognize, then terminate, and the catch
block logs and rethrows the generic message; there is no finally, so the
terminate effect is reached only when recognize resolves. -/
def processImageWithOCR (env : OcrEnv) :
    List OcrEff × Except (List Char) (List Char × ℚ) :=
  if env.createOk then
    match env.recognizeResult with
    | some d =>
      ([OcrEff.createWorker, OcrEff.recognize, OcrEff.terminate], Except.ok d)
    | none =>
      ([OcrEff.createWorker, OcrEff.recognize], Except.error ocrFailureMessage)
  else ([OcrEff.createWorker], Except.error ocrFailureMessage)

/-- Claim C4 states the worker created for a call of processImageWithOCR is
released whether recognition succeeds or fails.  The terminate call sits
after recognize inside the try block and the catch block holds no cleanup, so
on a run where createWorker succeeds and recognize throws the trace ends
without a terminate effect: the worker leaks, against the claim; on the
success path the worker is terminated. -/
theorem C4_worker_leak_on_failure :
    processImageWithOCR { createOk := true, recognizeResult := none } =
      ([OcrEff.createWorker, OcrEff.recognize], Except.error ocrFailureMessage) ∧
    OcrEff.terminate ∉
      (processImageWithOCR { createOk := true, recognizeResult := none }).1 ∧
    processImageWithOCR { createOk := true, recognizeResult := some ("t".data, 90) } =
      ([OcrEff.createWorker, OcrEff.recognize, OcrEff.terminate],
        Except.ok ("t".data, 90)) := by
  refine ⟨rfl, by decide, rfl⟩

/-! ### src/utils/ocrProcessor.ts: detectTextColumnStart -/

/-- One pixel, alpha elided (the detector reads r, g, b only). -/
structure RGB where
  r : Nat
  g : Nat
  b : Nat
deriving DecidableEq, Repr

/-- A pixel buffer with its dimensions. -/
structure PixelImage where
  width : Nat
  height : Nat
  pix : Nat → Nat → RGB

/-- Reading a coordinate, with out-of-bounds reads transparent black, as
getImageData pads regions outside the canvas. -/
def getPixel (img : PixelImage) (x y : Nat) : RGB :=
  if x < img.width && y < img.height then img.pix x y else { r := 0, g := 0, b := 0 }

/-- The saturation of a pixel: (max - min) / max, zero when max is zero. -/
def saturationQ (p : RGB) : ℚ :=
  let mx := max p.r (max p.g p.b)
  let mn := min p.r (min p.g p.b)
  if mx = 0 then 0 else ((mx : ℚ) - (mn : ℚ)) / (mx : ℚ)

/-- The colored-pixel test of the strip loop: brightness above 30 (the mean
of the channels, exact as r + g + b > 90) and saturation above 0.1 (the
saturation is a fraction with denominator at most 255, so the exact rational
comparison agrees with the double one). -/
def isColoredPixel (p : RGB) : Bool :=
  decide (90 < p.r + p.g + p.b) && decide ((0.1 : ℚ) < saturationQ p)

/-- The pixels of one strip rectangle: 10 wide, bandH tall, from (x0, y0). -/
def stripPixels (img : PixelImage) (x0 y0 bandH : Nat) : List RGB :=
  (List.range bandH).flatMap fun dy =>
    (List.range 10).map fun dx => getPixel img (x0 + dx) (y0 + dy)

/-- The colorfulness score of one strip: the fraction of colored pixels times
the mean saturation over the colored pixels (the denominator is
max(colored, 1)).  In ℚ the division by a zero pixel count yields 0; in the
source a zero-height band yields NaN scores, whose comparisons are all
false, with the same downstream result as the constant 0. -/
def colorScore (img : PixelImage) (x0 y0 bandH : Nat) : ℚ :=
  let ps := stripPixels img x0 y0 bandH
  let colored := ps.filter isColoredPixel
  let totalSaturation := (colored.map saturationQ).sum
  ((colored.length : ℚ) / ((10 * bandH : Nat) : ℚ)) *
    (totalSaturation / (max (colored.length : ℚ) 1))

/-- The number of 10-pixel strips: x runs over 0, 10, ... while x < width. -/
def nStrips (w : Nat) : Nat := (w + 9) / 10

/-- The per-strip colorfulness averaged over the 5 horizontal bands of height
floor(height / 5) starting at multiples of that height. -/
def avgColorfulness (img : PixelImage) : List ℚ :=
  (List.range (nStrips img.width)).map fun i =>
    (((List.range 5).map fun band =>
      colorScore img (i * 10) (band * (img.height / 5)) (img.height / 5)).sum) / 5

/-- The computed text-start x of detectTextColumnStart before the sanity
clamp: one strip width past the rightmost strip whose averaged colorfulness
strictly exceeds 0.08 times the maximum of the curve (strip 0 when none
does).  The scores are nonnegative, so the fold with base 0 is the maximum
of the curve. -/
def computedTextStartX (img : PixelImage) : Nat :=
  let avg := avgColorfulness img
  let maxColor := avg.foldr max 0
  let threshold := maxColor * (0.08 : ℚ)
  let lastColorfulStrip :=
    (List.range avg.length).foldl
      (fun acc i => if threshold < avg.getD i 0 then i else acc) 0
  (lastColorfulStrip + 1) * 10

/-- detectTextColumnStart of ocrProcessor.ts: the computed x, except that a
computed x outside 40 to 75 percent of the width is discarded for the fixed
fallback of 55 percent of the width. -/
def detectTextColumnStart (img : PixelImage) : ℚ :=
  let textStartX := computedTextStartX img
  if (textStartX : ℚ) < (0.40 : ℚ) * img.width ∨
      (0.75 : ℚ) * img.width < (textStartX : ℚ) then
    (0.55 : ℚ) * img.width
  else (textStartX : ℚ)

/-- Claim C10: whenever the computed text-start x — one strip width past the
rightmost strip whose band-averaged colorfulness exceeds 0.08 times the
maximum of the curve — falls outside the range from 40 to 75 percent of the
image width, detectTextColumnStart returns exactly 55 percent of the width
instead of the computed value. -/
theorem C10_column_detector_clamp (img : PixelImage)
    (h : (computedTextStartX img : ℚ) < (0.40 : ℚ) * img.width ∨
         (0.75 : ℚ) * img.width < (computedTextStartX img : ℚ)) :
    detectTextColumnStart img = (0.55 : ℚ) * img.width := by
  unfold detectTextColumnStart
  exact if_pos h

/-- A fully black 100 by 5 image: no strip is colorful, so the computed
boundary is one strip past strip 0, at 10 pixels — 10 percent of the width,
outside the 40 to 75 percent range — and the detector returns 55 pixels,
exactly 55 percent of the width. -/
def blackImage : PixelImage :=
  { width := 100, height := 5, pix := fun _ _ => { r := 0, g := 0, b := 0 } }

theorem blackImage_getPixel (x y : Nat) :
    getPixel blackImage x y = { r := 0, g := 0, b := 0 } := by
  unfold getPixel blackImage
  split <;> rfl

theorem blackImage_colorScore (x0 y0 bandH : Nat) :
    colorScore blackImage x0 y0 bandH = 0 := by
  have hmem : ∀ p ∈ stripPixels blackImage x0 y0 bandH,
      p = ({ r := 0, g := 0, b := 0 } : RGB) := by
    intro p hp
    unfold stripPixels at hp
    rcases List.mem_flatMap.mp hp with ⟨dy, _, hp2⟩
    rcases List.mem_map.mp hp2 with ⟨dx, _, rfl⟩
    exact blackImage_getPixel _ _
  have hfilter : (stripPixels blackImage x0 y0 bandH).filter isColoredPixel = [] := by
    rw [List.filter_eq_nil_iff]
    intro p hp
    rw [hmem p hp]
    decide
  simp only [colorScore, hfilter, List.length_nil, List.map_nil, List.sum_nil,
    Nat.cast_zero, zero_div, zero_mul]

theorem blackImage_avg :
    avgColorfulness blackImage = (List.range (nStrips blackImage.width)).map fun _ => (0 : ℚ) := by
  unfold avgColorfulness
  refine List.map_congr_left ?_
  intro i _
  simp [blackImage_colorScore]

theorem foldr_max_zero (l : List ℚ) (h : ∀ x ∈ l, x = 0) : l.foldr max 0 = 0 := by
  induction l with
  | nil => rfl
  | cons a t ih =>
    rw [List.foldr_cons, ih fun x hx => h x (List.mem_cons_of_mem a hx),
      h a (List.mem_cons_self a t), max_self]

theorem getD_zero_of_all_zero (l : List ℚ) (h : ∀ x ∈ l, x = 0) (i : Nat) :
    l.getD i 0 = 0 := by
  rw [List.getD_eq_getElem?_getD]
  cases hg : l[i]? with
  | none => rfl
  | some x =>
    rw [Option.getD_some]
    exact h x (List.getElem?_mem hg)

theorem foldl_if_none (threshold : ℚ) (avg : List ℚ)
    (h : ∀ i : Nat, ¬ threshold < avg.getD i 0) (l : List Nat) :
    ∀ acc : Nat,
      l.foldl (fun acc i => if threshold < avg.getD i 0 then i else acc) acc = acc := by
  induction l with
  | nil => intro acc; rfl
  | cons a t ih =>
    intro acc
    rw [List.foldl_cons, if_neg (h a)]
    exact ih acc

theorem blackImage_computed : computedTextStartX blackImage = 10 := by
  have hall : ∀ x ∈ avgColorfulness blackImage, x = (0 : ℚ) := by
    rw [blackImage_avg]
    intro x hx
    rcases List.mem_map.mp hx with ⟨i, _, rfl⟩
    rfl
  simp only [computedTextStartX]
  rw [foldr_max_zero _ hall, zero_mul]
  rw [foldl_if_none 0 (avgColorfulness blackImage)
    (fun i => by rw [getD_zero_of_all_zero _ hall i]; exact lt_irrefl 0)]

theorem C10_column_detector_clamp_witness :
    computedTextStartX blackImage = 10 ∧
    ((computedTextStartX blackImage : ℚ) < (0.40 : ℚ) * blackImage.width ∨
      (0.75 : ℚ) * blackImage.width < (computedTextStartX blackImage : ℚ)) ∧
    detectTextColumnStart blackImage = 55 := by
  have h2 : (computedTextStartX blackImage : ℚ) < (0.40 : ℚ) * blackImage.width ∨
      (0.75 : ℚ) * blackImage.width < (computedTextStartX blackImage : ℚ) := by
    rw [blackImage_computed]
    left
    show ((10 : Nat) : ℚ) < (0.40 : ℚ) * ((100 : Nat) : ℚ)
    norm_num
  refine ⟨blackImage_computed, h2, ?_⟩
  rw [C10_column_detector_clamp blackImage h2]
  show (0.55 : ℚ) * ((100 : Nat) : ℚ) = 55
  norm_num

end SpotifyReviewer
